import Mathlib

/-!
Shallow embedding of the indicator engine of `stocksee`
(`src/utils/technicalAnalysis.ts`) together with the weekly aggregation
described in the specification, and proofs about them.

JavaScript `number` arithmetic on finite values is modelled exactly by `ℚ`;
a separate `JSNum` type (`ℚ` extended with `NaN`) models the NaN-propagating
semantics needed for the malformed-input claims.  An absent (`undefined`)
optional field and a `null` value are both modelled by `Option`; where a
field can be `undefined`, `null` or a number (the `signal` field of a MACD
point) the model uses `Option (Option ℚ)`.
-/

/-- Mirror of the TypeScript interface `HistoricalDataPoint` from `src/types.ts`:
a dated closing price.  The close is a finite JS number, modelled by `ℚ`. -/
structure HistoricalDataPoint where
  date : String
  close : ℚ
deriving DecidableEq, Repr

/-- Mirror of the TypeScript interface `IndicatorPoint`: a dated indicator
value which may be `null` (`none`). -/
structure IndicatorPoint where
  date : String
  value : Option ℚ
deriving DecidableEq, Repr

/-- Mirror of the TypeScript interface `MACDPoint`.  All three numeric fields
start out absent (`undefined`, outer `none`).  The `signal` field is assigned
a value of type `number | null` by `calculateMACD`, hence `Option (Option ℚ)`:
`none` = never assigned, `some none` = assigned `null`, `some (some q)` =
assigned the number `q`. -/
structure MACDPoint where
  date : String
  macd : Option ℚ := none
  signal : Option (Option ℚ) := none
  histogram : Option ℚ := none
deriving DecidableEq, Repr

/-- Sliding-window loop of `calculateMA` (the second `for` loop of the source):
`window` holds the `period` closes ending just before the current bar,
`sum` is the running sum maintained by the source (`sum = sum - data[i-period].close
+ data[i].close`), and each step emits `sum / period`. -/
def maLoop (period : ℕ) (window : List ℚ) (sum : ℚ) : List ℚ → List (Option ℚ)
  | [] => []
  | c :: rest =>
    some ((sum - window.headI + c) / period) ::
      maLoop period (window.tail ++ [c]) (sum - window.headI + c) rest

/-- Embedding of `calculateMA` (src/utils/technicalAnalysis.ts, lines 10–25):
simple moving average, `null` before index `period - 1`, seed mean of the
first `period` closes at index `period - 1`, then the sliding-window loop.
The source throws at `period = 0` (it assigns `result[-1]` from the
nonexistent bar `data[-1]`); that never-exercised case is folded into the
all-null guard here and every theorem below assumes `1 ≤ period`. -/
def calculateMA (data : List HistoricalDataPoint) (period : ℕ) : List IndicatorPoint :=
  if data.length < period ∨ period = 0 then
    data.map fun d => ⟨d.date, none⟩
  else
    let closes := data.map HistoricalDataPoint.close
    let seedSum := (closes.take period).sum
    let values : List (Option ℚ) :=
      List.replicate (period - 1) none
        ++ some (seedSum / period) :: maLoop period (closes.take period) seedSum (closes.drop period)
    data.zipWith (fun d v => ⟨d.date, v⟩) values

/-- Concrete five-bar series from the specification's worked example:
daily closes 10, 11, 12, 13, 14, oldest to newest. -/
def demoBars : List HistoricalDataPoint :=
  [⟨"a", 10⟩, ⟨"b", 11⟩, ⟨"c", 12⟩, ⟨"d", 13⟩, ⟨"e", 14⟩]

/-- Recurrence loop of `calculateEMA` (the `for` loop of the source):
each step emits `(c - prev) * multiplier + prev` and feeds it forward. -/
def emaLoop (multiplier : ℚ) (prev : ℚ) : List ℚ → List (Option ℚ)
  | [] => []
  | c :: rest =>
    some ((c - prev) * multiplier + prev) ::
      emaLoop multiplier ((c - prev) * multiplier + prev) rest

/-- Embedding of the private `calculateEMA` (src/utils/technicalAnalysis.ts,
lines 32–45): nulls before index `period - 1`, the plain mean of the first
`period` closes at index `period - 1`, then the smoothing recurrence with
multiplier `2 / (period + 1)`.  The source throws at `period = 0` (reduce of
an empty slice); that case is folded into the all-null guard here and the
theorems below assume `1 ≤ period`. -/
def calculateEMA (data : List ℚ) (period : ℕ) : List (Option ℚ) :=
  if data.length < period ∨ period = 0 then List.replicate data.length none
  else
    List.replicate (period - 1) none
      ++ some ((data.take period).sum / period) ::
          emaLoop (2 / (period + 1)) ((data.take period).sum / period) (data.drop period)

/-- Sum of the positive close-to-close changes (`gains += change` branch of
the seed loop of `calculateRSI`), walking the closes with the previous close. -/
def sumGains (prev : ℚ) : List ℚ → ℚ
  | [] => 0
  | c :: rest => (if c - prev > 0 then c - prev else 0) + sumGains c rest

/-- Sum of the negated non-positive close-to-close changes (`losses -= change`
branch of the seed loop of `calculateRSI`). -/
def sumLosses (prev : ℚ) : List ℚ → ℚ
  | [] => 0
  | c :: rest => (if c - prev > 0 then 0 else -(c - prev)) + sumLosses c rest

/-- Gain contribution of a single change, as in the source's
`if (change > 0) currentGain = change`. -/
def currentGain (change : ℚ) : ℚ := if change > 0 then change else 0

/-- Loss contribution of a single change, as in the source's
`else currentLoss = -change`. -/
def currentLoss (change : ℚ) : ℚ := if change > 0 then 0 else -change

/-- Wilder smoothing step `(avg * (period - 1) + current) / period`. -/
def nextAvg (period : ℕ) (avg cur : ℚ) : ℚ := (avg * ((period : ℚ) - 1) + cur) / period

/-- Relative strength as the source computes it:
`rs = avgLoss > 0 ? avgGain / avgLoss : 0`. -/
def rsOf (avgGain avgLoss : ℚ) : ℚ := if avgLoss > 0 then avgGain / avgLoss else 0

/-- RSI formula `100 - (100 / (1 + rs))` applied to a relative strength. -/
def rsiValue (rs : ℚ) : ℚ := 100 - 100 / (1 + rs)

/-- Main loop of `calculateRSI` (indices `period + 1` onward): updates the
Wilder averages with the current change and emits the RSI value. -/
def rsiLoop (period : ℕ) (avgGain avgLoss prevClose : ℚ) :
    List HistoricalDataPoint → List IndicatorPoint
  | [] => []
  | d :: rest =>
    ⟨d.date, some (rsiValue (rsOf (nextAvg period avgGain (currentGain (d.close - prevClose)))
        (nextAvg period avgLoss (currentLoss (d.close - prevClose)))))⟩ ::
      rsiLoop period (nextAvg period avgGain (currentGain (d.close - prevClose)))
        (nextAvg period avgLoss (currentLoss (d.close - prevClose))) d.close rest

/-- Embedding of `calculateRSI` (src/utils/technicalAnalysis.ts, lines
95–136): nulls up to index `period - 1`, a seed RSI at index `period` from
the plain averages of the first `period` changes, then Wilder smoothing.
Both inner `match` default arms are unreachable because the guard ensures
`data.length > period ≥ 1`.  The source produces NaN values at `period = 0`
(division `0 / 0` in the seed averages); that never-exercised case is folded
into the all-null guard here and the theorems below assume `1 ≤ period`. -/
def calculateRSI (data : List HistoricalDataPoint) (period : ℕ) : List IndicatorPoint :=
  if data.length ≤ period ∨ period = 0 then data.map fun d => ⟨d.date, none⟩
  else
    match data with
    | [] => []
    | d0 :: rest =>
      match rest.drop (period - 1) with
      | [] => []
      | dp :: tail =>
        ((d0 :: rest).take period).map (fun d => ⟨d.date, none⟩)
          ++ ⟨dp.date, some (rsiValue (rsOf (sumGains d0.close ((rest.take period).map HistoricalDataPoint.close) / period)
                (sumLosses d0.close ((rest.take period).map HistoricalDataPoint.close) / period)))⟩
            :: rsiLoop period (sumGains d0.close ((rest.take period).map HistoricalDataPoint.close) / period)
                (sumLosses d0.close ((rest.take period).map HistoricalDataPoint.close) / period) dp.close tail

/-- Flat close series: fifteen bars, constant close 100, oldest to newest. -/
def flatBars : List HistoricalDataPoint := List.replicate 15 ⟨"f", 100⟩

/-- Signal/histogram assignment loop of `calculateMACD`: walks the points in
order; every point whose `macd` field is set consumes the next entry of the
signal line (a `number | null` value).  The source's histogram guard compares
both fields against `undefined` only, so an assigned `null` signal passes the
guard and JS arithmetic coerces it to 0 (`m - null = m`), modelled by
`Option.getD s 0`. -/
def attachSignal (sl : List (Option ℚ)) : List MACDPoint → List MACDPoint
  | [] => []
  | p :: ps =>
    match p.macd with
    | none => p :: attachSignal sl ps
    | some m =>
      match sl with
      | [] => p :: attachSignal [] ps
      | s :: sl2 =>
        { p with signal := some s, histogram := some (m - s.getD 0) } :: attachSignal sl2 ps

/-- Embedding of `calculateMACD` (src/utils/technicalAnalysis.ts, lines
53–88); the source defaults are `fastPeriod = 12`, `slowPeriod = 26`,
`signalPeriod = 9`.  The MACD line subtracts the slow EMA from the fast EMA
where both are non-null; the signal line is the EMA of the compacted
(null-free) MACD values; `attachSignal` then distributes it. -/
def calculateMACD (data : List HistoricalDataPoint)
    (fastPeriod slowPeriod signalPeriod : ℕ) : List MACDPoint :=
  if data.length < slowPeriod then []
  else
    let closes := data.map HistoricalDataPoint.close
    let macdLine := List.zipWith (fun f s =>
        match f, s with
        | some a, some b => some (a - b)
        | _, _ => none)
      (calculateEMA closes fastPeriod) (calculateEMA closes slowPeriod)
    attachSignal (calculateEMA (macdLine.filterMap id) signalPeriod)
      (List.zipWith (fun d m => { date := d.date, macd := m }) data macdLine)

/-- Twenty-six bars with constant close 1, the minimum length at which the
default MACD produces a point with a computed MACD value. -/
def bars26 : List HistoricalDataPoint := List.replicate 26 ⟨"x", 1⟩

/-- JavaScript `number` semantics restricted to what the indicator code can
produce from finite-or-NaN inputs: a rational or NaN.  Any arithmetic
involving NaN yields NaN. -/
inductive JSNum where
  | nan : JSNum
  | num : ℚ → JSNum
deriving DecidableEq, Repr

instance : Inhabited JSNum := ⟨JSNum.num 0⟩

/-- NaN-propagating addition. -/
def JSNum.add : JSNum → JSNum → JSNum
  | num a, num b => num (a + b)
  | _, _ => nan

/-- NaN-propagating subtraction. -/
def JSNum.sub : JSNum → JSNum → JSNum
  | num a, num b => num (a - b)
  | _, _ => nan

/-- NaN-propagating division.  The indicator code only ever divides by the
positive constant `period`, so the JS infinities of division by zero cannot
arise; a zero divisor is mapped to NaN here. -/
def JSNum.div : JSNum → JSNum → JSNum
  | num a, num b => if b = 0 then nan else num (a / b)
  | _, _ => nan

instance : Add JSNum := ⟨JSNum.add⟩

instance : Sub JSNum := ⟨JSNum.sub⟩

instance : Div JSNum := ⟨JSNum.div⟩

instance : Zero JSNum := ⟨JSNum.num 0⟩

/-- Mirror of `HistoricalDataPoint` with a possibly-NaN close. -/
structure HistoricalDataPointJS where
  date : String
  close : JSNum
deriving DecidableEq, Repr

/-- Mirror of `IndicatorPoint` with a possibly-NaN value. -/
structure IndicatorPointJS where
  date : String
  value : Option JSNum
deriving DecidableEq, Repr

/-- Sliding-window loop of `calculateMA` over JS numbers; identical in
structure to `maLoop`. -/
def maLoopJS (period : ℕ) (window : List JSNum) (sum : JSNum) : List JSNum → List (Option JSNum)
  | [] => []
  | c :: rest =>
    some ((sum - window.headI + c) / JSNum.num period) ::
      maLoopJS period (window.tail ++ [c]) (sum - window.headI + c) rest

/-- Embedding of `calculateMA` over JS numbers (same translation of
src/utils/technicalAnalysis.ts lines 10–25 as `calculateMA`, with `ℚ`
replaced by the NaN-aware `JSNum`), used to settle the malformed-input
behaviour. -/
def calculateMAJS (data : List HistoricalDataPointJS) (period : ℕ) : List IndicatorPointJS :=
  if data.length < period ∨ period = 0 then
    data.map fun d => ⟨d.date, none⟩
  else
    let closes := data.map HistoricalDataPointJS.close
    data.zipWith (fun d v => ⟨d.date, v⟩)
      (List.replicate (period - 1) none
        ++ some ((closes.take period).sum / JSNum.num period)
          :: maLoopJS period (closes.take period) (closes.take period).sum (closes.drop period))

/-- Two bars whose first close is NaN (a malformed numeric input). -/
def nanBars : List HistoricalDataPointJS := [⟨"a", JSNum.nan⟩, ⟨"b", JSNum.num 1⟩]

/-- Two bars, oldest first. -/
def twoBars : List HistoricalDataPoint := [⟨"d0", 1⟩, ⟨"d1", 2⟩]

/-- Modelled from the spec: a daily/weekly price bar for the aggregation
step.  No `aggregateToWeekly` exists under src — `fetchChartData`
(src/services/stockService.ts) obtains weekly bars from the upstream API
with `interval=1wk` — so the date is modelled as a day number (days since
the Unix epoch, day 0 = Thursday 1970-01-01) to express the spec's calendar
bucketing. -/
structure DailyBar where
  date : ℤ
  close : ℚ
deriving DecidableEq, Repr

/-- Modelled from the spec: the Monday (ISO week start) of a calendar day.
Day 4 is Monday 1970-01-05, so day `d` falls `(d + 3) % 7` days after its
week's Monday. -/
def mondayOf (d : ℤ) : ℤ := d - (d + 3) % 7

/-- Modelled from the spec: chronological bucketing loop.  `key` is the
Monday of the open bucket and `close` its latest close; a bar in the same
ISO week updates the close, a bar in a new week emits the bucket. -/
def aggLoop (key : ℤ) (close : ℚ) : List DailyBar → List DailyBar
  | [] => [⟨key, close⟩]
  | b :: rest =>
    if mondayOf b.date = key then aggLoop key b.close rest
    else ⟨key, close⟩ :: aggLoop (mondayOf b.date) b.close rest

/-- Modelled from the spec: `aggregateToWeekly` buckets chronological daily
bars by the Monday of their calendar date; each weekly bar's close is the
chronologically latest daily close of its bucket. -/
def aggregateToWeekly : List DailyBar → List DailyBar
  | [] => []
  | b :: rest => aggLoop (mondayOf b.date) b.close rest

/-- Seven consecutive daily bars starting at Monday 1970-01-12 (day 11). -/
def weekBars : List DailyBar :=
  [⟨11, 1⟩, ⟨12, 2⟩, ⟨13, 3⟩, ⟨14, 4⟩, ⟨15, 5⟩, ⟨16, 6⟩, ⟨17, 7⟩]

/-- NaN-propagating multiplication. -/
def JSNum.mul : JSNum → JSNum → JSNum
  | num a, num b => num (a * b)
  | _, _ => nan

instance : Mul JSNum := ⟨JSNum.mul⟩

/-- NaN-propagating negation (the source's `-change`). -/
def JSNum.neg : JSNum → JSNum
  | num a => num (-a)
  | nan => nan

/-- The JS comparison `x > 0`: false on NaN (all NaN comparisons are false). -/
def JSNum.gtZero : JSNum → Bool
  | num a => decide (0 < a)
  | nan => false

/-- A JS value that is a plain nonnegative number. -/
def JSNum.IsNonneg (x : JSNum) : Prop := ∃ a : ℚ, x = JSNum.num a ∧ 0 ≤ a

/-- Mirror of `MACDPoint` over JS numbers. -/
structure MACDPointJS where
  date : String
  macd : Option JSNum := none
  signal : Option (Option JSNum) := none
  histogram : Option JSNum := none
deriving DecidableEq, Repr

/-- Recurrence loop of `calculateEMA` over JS numbers; same translation as
`emaLoop`. -/
def emaLoopJS (multiplier prev : JSNum) : List JSNum → List (Option JSNum)
  | [] => []
  | c :: rest =>
    some ((c - prev) * multiplier + prev) ::
      emaLoopJS multiplier ((c - prev) * multiplier + prev) rest

/-- Embedding of `calculateEMA` over JS numbers (same translation of
src/utils/technicalAnalysis.ts lines 32–45 as `calculateEMA`, with `ℚ`
replaced by the NaN-aware `JSNum`). -/
def calculateEMAJS (data : List JSNum) (period : ℕ) : List (Option JSNum) :=
  if data.length < period ∨ period = 0 then List.replicate data.length none
  else
    List.replicate (period - 1) none
      ++ some ((data.take period).sum / JSNum.num period) ::
          emaLoopJS (JSNum.num 2 / (JSNum.num period + JSNum.num 1))
            ((data.take period).sum / JSNum.num period) (data.drop period)

/-- Signal/histogram assignment loop of `calculateMACD` over JS numbers;
same translation as `attachSignal` (an assigned null signal passes the
`!== undefined` guard and is coerced to 0 in the subtraction). -/
def attachSignalJS (sl : List (Option JSNum)) : List MACDPointJS → List MACDPointJS
  | [] => []
  | p :: ps =>
    match p.macd with
    | none => p :: attachSignalJS sl ps
    | some m =>
      match sl with
      | [] => p :: attachSignalJS [] ps
      | s :: sl2 =>
        { p with signal := some s, histogram := some (m - s.getD (JSNum.num 0)) } ::
          attachSignalJS sl2 ps

/-- Embedding of `calculateMACD` over JS numbers (same translation of
src/utils/technicalAnalysis.ts lines 53–88 as `calculateMACD`).  Note the
compaction filter of the source is `v !== null`, which keeps NaN entries. -/
def calculateMACDJS (data : List HistoricalDataPointJS)
    (fastPeriod slowPeriod signalPeriod : ℕ) : List MACDPointJS :=
  if data.length < slowPeriod then []
  else
    let closes := data.map HistoricalDataPointJS.close
    let macdLine := List.zipWith (fun f s =>
        match f, s with
        | some a, some b => some (a - b)
        | _, _ => none)
      (calculateEMAJS closes fastPeriod) (calculateEMAJS closes slowPeriod)
    attachSignalJS (calculateEMAJS (macdLine.filterMap id) signalPeriod)
      (List.zipWith (fun d m => { date := d.date, macd := m }) data macdLine)

/-- Seed gains of `calculateRSI` over JS numbers: a NaN change fails the
`change > 0` test and leaves the gains untouched. -/
def sumGainsJS (prev : JSNum) : List JSNum → JSNum
  | [] => JSNum.num 0
  | c :: rest => (if (c - prev).gtZero then c - prev else JSNum.num 0) + sumGainsJS c rest

/-- Seed losses of `calculateRSI` over JS numbers: a NaN change takes the
else branch (`losses -= change`) and poisons the running losses. -/
def sumLossesJS (prev : JSNum) : List JSNum → JSNum
  | [] => JSNum.num 0
  | c :: rest =>
    (if (c - prev).gtZero then JSNum.num 0 else JSNum.neg (c - prev)) + sumLossesJS c rest

/-- Gain contribution of a single change over JS numbers. -/
def currentGainJS (change : JSNum) : JSNum := if change.gtZero then change else JSNum.num 0

/-- Loss contribution of a single change over JS numbers. -/
def currentLossJS (change : JSNum) : JSNum :=
  if change.gtZero then JSNum.num 0 else JSNum.neg change

/-- Wilder smoothing step over JS numbers. -/
def nextAvgJS (period : ℕ) (avg cur : JSNum) : JSNum :=
  (avg * (JSNum.num period - JSNum.num 1) + cur) / JSNum.num period

/-- Relative strength over JS numbers: `avgLoss > 0` is false when the
average loss is NaN, so a NaN average loss yields `rs = 0`. -/
def rsOfJS (avgGain avgLoss : JSNum) : JSNum :=
  if avgLoss.gtZero then avgGain / avgLoss else JSNum.num 0

/-- RSI formula over JS numbers. -/
def rsiValueJS (rs : JSNum) : JSNum :=
  JSNum.num 100 - JSNum.num 100 / (JSNum.num 1 + rs)

/-- Main loop of `calculateRSI` over JS numbers; same translation as
`rsiLoop`. -/
def rsiLoopJS (period : ℕ) (avgGain avgLoss prevClose : JSNum) :
    List HistoricalDataPointJS → List IndicatorPointJS
  | [] => []
  | d :: rest =>
    ⟨d.date, some (rsiValueJS (rsOfJS
        (nextAvgJS period avgGain (currentGainJS (d.close - prevClose)))
        (nextAvgJS period avgLoss (currentLossJS (d.close - prevClose)))))⟩ ::
      rsiLoopJS period (nextAvgJS period avgGain (currentGainJS (d.close - prevClose)))
        (nextAvgJS period avgLoss (currentLossJS (d.close - prevClose))) d.close rest

/-- Embedding of `calculateRSI` over JS numbers (same translation of
src/utils/technicalAnalysis.ts lines 95–136 as `calculateRSI`, with `ℚ`
replaced by the NaN-aware `JSNum`). -/
def calculateRSIJS (data : List HistoricalDataPointJS) (period : ℕ) : List IndicatorPointJS :=
  if data.length ≤ period ∨ period = 0 then data.map fun d => ⟨d.date, none⟩
  else
    match data with
    | [] => []
    | d0 :: rest =>
      match rest.drop (period - 1) with
      | [] => []
      | dp :: tail =>
        ((d0 :: rest).take period).map (fun d => ⟨d.date, none⟩)
          ++ ⟨dp.date, some (rsiValueJS (rsOfJS
                (sumGainsJS d0.close ((rest.take period).map HistoricalDataPointJS.close) /
                  JSNum.num period)
                (sumLossesJS d0.close ((rest.take period).map HistoricalDataPointJS.close) /
                  JSNum.num period)))⟩
            :: rsiLoopJS period
                (sumGainsJS d0.close ((rest.take period).map HistoricalDataPointJS.close) /
                  JSNum.num period)
                (sumLossesJS d0.close ((rest.take period).map HistoricalDataPointJS.close) /
                  JSNum.num period)
                dp.close tail

example : calculateMA [⟨"a", 10⟩, ⟨"b", 11⟩, ⟨"c", 12⟩, ⟨"d", 13⟩, ⟨"e", 14⟩] 3 =
    [⟨"a", none⟩, ⟨"b", none⟩, ⟨"c", some 11⟩, ⟨"d", some 12⟩, ⟨"e", some 13⟩] := by
  norm_num [calculateMA, maLoop, List.replicate, List.zipWith]

lemma maLoop_length (period : ℕ) :
    ∀ (rest : List ℚ) (window : List ℚ) (sum : ℚ),
      (maLoop period window sum rest).length = rest.length := by
  intro rest
  induction rest with
  | nil => intro window sum; rfl
  | cons c rest ih => intro window sum; simp [maLoop, ih]

/-- Sliding the window one step to the right preserves the running sum:
subtracting the departing close and adding the arriving one is exact in `ℚ`. -/
lemma sum_slide (a c : ℚ) (t : List ℚ) :
    (a :: t).sum - (a :: t).headI + c = (t ++ [c]).sum := by
  simp [List.sum_append]

/-- Characterization of the sliding-window loop: provided the running sum is
the sum of the current window of length `period`, the `j`-th emitted value is
the mean of the `period` closes ending at overall position `period + j`. -/
lemma maLoop_getElem (period : ℕ) (hp : 0 < period) :
    ∀ (rest window : List ℚ) (j : ℕ), window.length = period → j < rest.length →
      (maLoop period window window.sum rest)[j]? =
        some (some ((((window ++ rest).drop (j + 1)).take period).sum / (period : ℚ))) := by
  intro rest
  induction rest with
  | nil => intro window j _ hj; simp at hj
  | cons c rest ih =>
    intro window j hw hj
    obtain ⟨a, t, rfl⟩ : ∃ a t, window = a :: t := by
      cases window with
      | nil => simp at hw; omega
      | cons a t => exact ⟨a, t, rfl⟩
    have ht : t.length = period - 1 := by
      simp at hw
      omega
    rw [maLoop]
    cases j with
    | zero =>
      simp only [List.getElem?_cons_zero, List.cons_append, List.drop_succ_cons,
        List.drop_zero, sum_slide]
      rw [List.take_append_eq_append_take, List.take_of_length_le (by omega),
        ht, show period - (period - 1) = 1 by omega]
      simp
    | succ k =>
      simp only [List.getElem?_cons_succ, List.tail_cons, sum_slide]
      have hlen : (t ++ [c]).length = period := by
        simp
        omega
      rw [ih (t ++ [c]) k hlen (by simpa using hj)]
      simp [List.append_assoc]

/-- C1: for `1 ≤ period ≤ data.length`, `calculateMA` returns exactly one
point per input bar, carrying the input bar's date; the first `period - 1`
entries are null and every later entry holds the arithmetic mean of the
closes of the trailing `period` bars ending at that entry. -/
theorem C1_calculateMA_correct (data : List HistoricalDataPoint) (period : ℕ)
    (hp : 1 ≤ period) (hl : period ≤ data.length) :
    (calculateMA data period).length = data.length ∧
    ∀ i (hi : i < data.length),
      (calculateMA data period)[i]? =
        some ⟨(data.get ⟨i, hi⟩).date,
              if i + 1 < period then none
              else some ((((data.drop (i + 1 - period)).take period).map
                  HistoricalDataPoint.close).sum / (period : ℚ))⟩ := by
  have hguard : ¬(data.length < period ∨ period = 0) := by omega
  rw [calculateMA, if_neg hguard]
  have hclen : (data.map HistoricalDataPoint.close).length = data.length := by simp
  set closes := data.map HistoricalDataPoint.close with hcloses
  set values : List (Option ℚ) :=
    List.replicate (period - 1) none
      ++ some ((closes.take period).sum / period) ::
          maLoop period (closes.take period) (closes.take period).sum (closes.drop period)
    with hvalues
  have hvlen : values.length = data.length := by
    rw [hvalues]
    simp [maLoop_length]
    omega
  constructor
  · simp [hvlen]
  · intro i hi
    rw [List.getElem?_zipWith]
    rw [show data[i]? = some (data.get ⟨i, hi⟩) by simp]
    have hvi : values[i]? =
        if i + 1 < period then some none
        else some (some ((((data.drop (i + 1 - period)).take period).map
            HistoricalDataPoint.close).sum / (period : ℚ))) := by
      rw [hvalues]
      by_cases hcase : i + 1 < period
      · rw [if_pos hcase, List.getElem?_append_left (by simp; omega)]
        rw [List.getElem?_replicate, if_pos (show i < period - 1 by omega)]
      · rw [if_neg hcase, List.getElem?_append_right (by simp; omega)]
        simp only [List.length_replicate]
        by_cases hseed : i + 1 = period
        · rw [show i - (period - 1) = 0 by omega, List.getElem?_cons_zero]
          rw [show i + 1 - period = 0 by omega]
          rw [List.map_take, List.map_drop, ← hcloses]
          simp
        · rw [show i - (period - 1) = (i - period) + 1 by omega, List.getElem?_cons_succ]
          rw [maLoop_getElem period (by omega) _ _ _ (by simp [hclen]; omega)
            (by simp [maLoop_length, hclen]; omega)]
          rw [List.take_append_drop]
          rw [List.map_take, List.map_drop, ← hcloses]
          rw [show i - period + 1 = i + 1 - period by omega]
    rw [hvi]
    by_cases hcase : i + 1 < period <;> simp [hcase]

theorem C1_calculateMA_correct_witness :
    (calculateMA demoBars 3).length = demoBars.length ∧
    (calculateMA demoBars 3)[4]? = some ⟨"e", some 13⟩ := by
  have h := C1_calculateMA_correct demoBars 3 (by norm_num) (by norm_num [demoBars])
  refine ⟨h.1, ?_⟩
  have h4 := h.2 4 (by norm_num [demoBars])
  rw [h4]
  norm_num [demoBars]

lemma emaLoop_length (m : ℚ) :
    ∀ (rest : List ℚ) (prev : ℚ), (emaLoop m prev rest).length = rest.length := by
  intro rest
  induction rest with
  | nil => intro prev; rfl
  | cons c rest ih => intro prev; simp [emaLoop, ih]

/-- Every value the EMA recurrence loop emits is non-null. -/
lemma emaLoop_isSome (m : ℚ) :
    ∀ (rest : List ℚ) (prev : ℚ) (j : ℕ) (v : Option ℚ),
      (emaLoop m prev rest)[j]? = some v → v.isSome := by
  intro rest
  induction rest with
  | nil => intro prev j v hv; simp [emaLoop] at hv
  | cons c rest ih =>
    intro prev j v hv
    cases j with
    | zero => simp [emaLoop] at hv; simp [← hv]
    | succ k =>
      rw [emaLoop, List.getElem?_cons_succ] at hv
      exact ih _ k v hv

/-- Consecutive-entry relation of the seeded EMA chain: entry `j + 1` is
obtained from entry `j` and the `j`-th remaining close by the smoothing
recurrence. -/
lemma emaChain_step (m : ℚ) :
    ∀ (rest : List ℚ) (sma : ℚ) (j : ℕ), j < rest.length →
      ∃ q c, (some sma :: emaLoop m sma rest)[j]? = some (some q) ∧
        rest[j]? = some c ∧
        (some sma :: emaLoop m sma rest)[j + 1]? = some (some ((c - q) * m + q)) := by
  intro rest
  induction rest with
  | nil => intro sma j hj; simp at hj
  | cons c rest ih =>
    intro sma j hj
    cases j with
    | zero =>
      refine ⟨sma, c, ?_, ?_, ?_⟩ <;> simp [emaLoop]
    | succ k =>
      have hk : k < rest.length := by simpa using hj
      obtain ⟨q, c2, h1, h2, h3⟩ := ih ((c - sma) * m + sma) k hk
      refine ⟨q, c2, ?_, ?_, ?_⟩
      · simp only [List.getElem?_cons_succ, emaLoop]
        exact h1
      · simpa using h2
      · simp only [List.getElem?_cons_succ, emaLoop]
        simpa using h3

/-- C4: for `1 ≤ period ≤ data.length`, `calculateEMA` places the plain mean
of the first `period` closes at index `period - 1`, leaves all earlier
indices null, and satisfies the recurrence
`ema[i] = (close[i] - ema[i-1]) * (2/(period+1)) + ema[i-1]` for `i ≥ period`. -/
theorem C4_calculateEMA_correct (data : List ℚ) (period : ℕ)
    (hp : 1 ≤ period) (hl : period ≤ data.length) :
    (calculateEMA data period).length = data.length ∧
    (∀ i, i + 1 < period → (calculateEMA data period)[i]? = some none) ∧
    (calculateEMA data period)[period - 1]? =
      some (some ((data.take period).sum / (period : ℚ))) ∧
    (∀ i, period ≤ i → i < data.length →
      ∃ q c, (calculateEMA data period)[i - 1]? = some (some q) ∧
        data[i]? = some c ∧
        (calculateEMA data period)[i]? =
          some (some ((c - q) * (2 / ((period : ℚ) + 1)) + q))) := by
  have hguard : ¬(data.length < period ∨ period = 0) := by omega
  rw [calculateEMA, if_neg hguard]
  set sma := (data.take period).sum / (period : ℚ) with hsma
  set chain := some sma :: emaLoop (2 / ((period : ℚ) + 1)) sma (data.drop period)
    with hchain
  have hchainlen : chain.length = data.length - period + 1 := by
    rw [hchain]
    simp [emaLoop_length]
  refine ⟨?_, ?_, ?_, ?_⟩
  · simp [hchainlen]
    omega
  · intro i hi
    rw [List.getElem?_append_left (by simp; omega), List.getElem?_replicate,
      if_pos (show i < period - 1 by omega)]
  · rw [List.getElem?_append_right (by simp), List.length_replicate, Nat.sub_self,
      hchain, List.getElem?_cons_zero]
  · intro i hpi hi
    obtain ⟨q, c, h1, h2, h3⟩ :=
      emaChain_step (2 / ((period : ℚ) + 1)) (data.drop period) sma (i - period)
        (by simp; omega)
    refine ⟨q, c, ?_, ?_, ?_⟩
    · rw [List.getElem?_append_right (by simp; omega), List.length_replicate,
        show i - 1 - (period - 1) = i - period by omega]
      exact h1
    · rw [List.getElem?_drop] at h2
      rw [show period + (i - period) = i by omega] at h2
      exact h2
    · rw [List.getElem?_append_right (by simp; omega), List.length_replicate,
        show i - (period - 1) = i - period + 1 by omega]
      exact h3

theorem C4_calculateEMA_correct_witness :
    (calculateEMA [10, 11, 12, 13, 14] 3).length = 5 ∧
    (calculateEMA [10, 11, 12, 13, 14] 3)[2]? = some (some 11) ∧
    (calculateEMA [10, 11, 12, 13, 14] 3)[3]? = some (some 12) := by
  have h := C4_calculateEMA_correct [10, 11, 12, 13, 14] 3 (by norm_num) (by norm_num)
  refine ⟨by simpa using h.1, ?_, ?_⟩
  · have h2 := h.2.2.1
    rw [h2]
    norm_num
  · obtain ⟨q, c, hq, hc, hval⟩ := h.2.2.2 3 (by norm_num) (by norm_num)
    have h2 := h.2.2.1
    rw [h2] at hq
    rw [show ((10 : ℚ) :: [11, 12, 13, 14]).take 3 = [10, 11, 12] by norm_num] at hq
    norm_num at hq hc
    rw [hval, ← hq, ← hc]
    norm_num

example : calculateRSI [⟨"a", 1⟩, ⟨"b", 3⟩] 1 = [⟨"a", none⟩, ⟨"b", some 0⟩] := by
  norm_num [calculateRSI, rsiLoop, sumGains, sumLosses, rsOf, rsiValue]

example : calculateRSI [⟨"a", 4⟩, ⟨"b", 3⟩, ⟨"c", 1⟩] 1 =
    [⟨"a", none⟩, ⟨"b", some 0⟩, ⟨"c", some 0⟩] := by
  norm_num [calculateRSI, rsiLoop, sumGains, sumLosses, rsOf, rsiValue, nextAvg,
    currentGain, currentLoss]

/-- C3: on a flat close series of 15 bars with the default period 14 the
single computable RSI value is 0, not 100: the source maps a zero average
loss to `rs = 0`, and `100 - 100 / (1 + 0) = 0`.  This exhibits the
divergence between the code and the specified zero-loss behaviour. -/
theorem C3_flat_series_rsi_is_zero :
    (calculateRSI flatBars 14).map IndicatorPoint.value =
      List.replicate 14 none ++ [some 0] ∧ (0 : ℚ) ≠ 100 := by
  constructor
  · norm_num [calculateRSI, flatBars, rsiLoop, sumGains, sumLosses, rsOf, rsiValue,
      List.replicate]
  · norm_num

lemma sumGains_nonneg (prev : ℚ) (l : List ℚ) : 0 ≤ sumGains prev l := by
  induction l generalizing prev with
  | nil => simp [sumGains]
  | cons c rest ih =>
    rw [sumGains]
    have h := ih c
    split <;> linarith

lemma sumLosses_nonneg (prev : ℚ) (l : List ℚ) : 0 ≤ sumLosses prev l := by
  induction l generalizing prev with
  | nil => simp [sumLosses]
  | cons c rest ih =>
    rw [sumLosses]
    have h := ih c
    rcases lt_or_le 0 (c - prev) with hc | hc
    · rw [if_pos hc]; linarith
    · rw [if_neg (not_lt.mpr hc)]; linarith

lemma currentGain_nonneg (change : ℚ) : 0 ≤ currentGain change := by
  rw [currentGain]; split <;> linarith

lemma currentLoss_nonneg (change : ℚ) : 0 ≤ currentLoss change := by
  rw [currentLoss]
  rcases lt_or_le 0 change with hc | hc
  · rw [if_pos hc]
  · rw [if_neg (not_lt.mpr hc)]; linarith

lemma nextAvg_nonneg (period : ℕ) (hp : 1 ≤ period) (avg cur : ℚ)
    (ha : 0 ≤ avg) (hc : 0 ≤ cur) : 0 ≤ nextAvg period avg cur := by
  have h1 : (1 : ℚ) ≤ (period : ℚ) := by exact_mod_cast hp
  have h2 : (0 : ℚ) ≤ (period : ℚ) - 1 := by linarith
  rw [nextAvg]
  positivity

lemma rsOf_nonneg (avgGain avgLoss : ℚ) (hg : 0 ≤ avgGain) : 0 ≤ rsOf avgGain avgLoss := by
  rw [rsOf]
  split
  · positivity
  · exact le_refl 0

/-- With a nonnegative relative strength, the RSI formula lands in `[0, 100)`:
the subtracted term `100 / (1 + rs)` lies in `(0, 100]`. -/
lemma rsiValue_range (rs : ℚ) (h : 0 ≤ rs) : 0 ≤ rsiValue rs ∧ rsiValue rs < 100 := by
  have h1 : (0 : ℚ) < 1 + rs := by linarith
  have h2 : 100 / (1 + rs) ≤ 100 := by
    rw [div_le_iff₀ h1]
    nlinarith
  have h3 : (0 : ℚ) < 100 / (1 + rs) := by positivity
  rw [rsiValue]
  constructor <;> linarith

lemma rsiLoop_range (period : ℕ) (hp : 1 ≤ period) :
    ∀ (rest : List HistoricalDataPoint) (avgGain avgLoss prevClose : ℚ),
      0 ≤ avgGain → 0 ≤ avgLoss →
      ∀ pt ∈ rsiLoop period avgGain avgLoss prevClose rest,
        ∀ v, pt.value = some v → 0 ≤ v ∧ v < 100 := by
  intro rest
  induction rest with
  | nil => intro _ _ _ _ _ pt hpt; simp [rsiLoop] at hpt
  | cons d rest ih =>
    intro avgGain avgLoss prevClose hg hl pt hpt v hv
    rw [rsiLoop] at hpt
    rcases List.mem_cons.mp hpt with h | h
    · have hg2 := nextAvg_nonneg period hp avgGain (currentGain (d.close - prevClose)) hg
        (currentGain_nonneg _)
      have hrs := rsOf_nonneg _ (nextAvg period avgLoss (currentLoss (d.close - prevClose))) hg2
      rw [h] at hv
      simp at hv
      rw [← hv]
      exact rsiValue_range _ hrs
    · exact ih (nextAvg period avgGain (currentGain (d.close - prevClose)))
        (nextAvg period avgLoss (currentLoss (d.close - prevClose))) d.close
        (nextAvg_nonneg period hp _ _ hg (currentGain_nonneg _))
        (nextAvg_nonneg period hp _ _ hl (currentLoss_nonneg _)) pt h v hv

/-- C10: every non-null value `calculateRSI` produces lies in `[0, 100)`;
in particular the value 100 is never attained, because a zero average loss
is mapped to `rs = 0` rather than an infinite ratio. -/
theorem C10_calculateRSI_range (data : List HistoricalDataPoint) (period : ℕ)
    (hp : 1 ≤ period) :
    ∀ pt ∈ calculateRSI data period, ∀ v, pt.value = some v → 0 ≤ v ∧ v < 100 := by
  intro pt hpt v hv
  by_cases hguard : data.length ≤ period ∨ period = 0
  · rw [calculateRSI.eq_def, if_pos hguard] at hpt
    obtain ⟨d, _, hd⟩ := List.mem_map.mp hpt
    rw [← hd] at hv
    simp at hv
  · rcases data with _ | ⟨d0, rest⟩
    · exact absurd (Or.inl (by simp)) hguard
    · rcases hdrop : rest.drop (period - 1) with _ | ⟨dp, tail⟩
      · exfalso
        rw [List.drop_eq_nil_iff] at hdrop
        simp at hguard
        omega
      · rw [calculateRSI.eq_def, if_neg hguard] at hpt
        simp only [hdrop] at hpt
        set avgGain := sumGains d0.close ((rest.take period).map HistoricalDataPoint.close) /
          (period : ℚ) with havgG
        set avgLoss := sumLosses d0.close ((rest.take period).map HistoricalDataPoint.close) /
          (period : ℚ) with havgL
        have hg : 0 ≤ avgGain := by
          rw [havgG]
          have := sumGains_nonneg d0.close ((rest.take period).map HistoricalDataPoint.close)
          positivity
        have hl : 0 ≤ avgLoss := by
          rw [havgL]
          have := sumLosses_nonneg d0.close ((rest.take period).map HistoricalDataPoint.close)
          positivity
        rcases List.mem_append.mp hpt with h | h
        · obtain ⟨d, _, hd⟩ := List.mem_map.mp h
          rw [← hd] at hv
          simp at hv
        · rcases List.mem_cons.mp h with h2 | h2
          · rw [h2] at hv
            simp at hv
            rw [← hv]
            exact rsiValue_range _ (rsOf_nonneg _ avgLoss hg)
          · exact rsiLoop_range period hp tail avgGain avgLoss dp.close hg hl pt h2 v hv

theorem C10_calculateRSI_range_witness :
    (⟨"b", some 0⟩ : IndicatorPoint) ∈ calculateRSI [⟨"a", 1⟩, ⟨"b", 3⟩] 1 ∧
    (0 ≤ (0 : ℚ) ∧ (0 : ℚ) < 100) := by
  have hmem : (⟨"b", some 0⟩ : IndicatorPoint) ∈ calculateRSI [⟨"a", 1⟩, ⟨"b", 3⟩] 1 := by
    norm_num [calculateRSI, rsiLoop, sumGains, sumLosses, rsOf, rsiValue]
  exact ⟨hmem, C10_calculateRSI_range [⟨"a", 1⟩, ⟨"b", 3⟩] 1 (by norm_num)
    ⟨"b", some 0⟩ hmem 0 rfl⟩

/-- C2: at the very first point carrying a MACD value, the signal line entry
is still null, yet the code populates the histogram (with `macd - 0`): the
`!== undefined` guard does not filter out an assigned `null`.  Here
`macd = 0`, `signal = some none` (assigned null) and `histogram = some 0`
(populated), refuting the claim that the histogram is never populated where
the signal is null. -/
theorem C2_histogram_populated_despite_null_signal :
    (calculateMACD bars26 12 26 9)[25]? =
      some ⟨"x", some 0, some none, some 0⟩ ∧
    ∀ p : MACDPoint, (calculateMACD bars26 12 26 9)[25]? = some p →
      p.signal = some none ∧ p.histogram ≠ none := by
  have h : (calculateMACD bars26 12 26 9)[25]? = some ⟨"x", some 0, some none, some 0⟩ := by
    norm_num [calculateMACD, calculateEMA, emaLoop, attachSignal, bars26,
      List.replicate, List.zipWith, List.filterMap]
  refine ⟨h, ?_⟩
  intro p hp
  rw [h] at hp
  cases hp
  exact ⟨rfl, by simp⟩

/-- C5: undersized inputs.  `calculateMA` with fewer than `period` bars and
`calculateRSI` with fewer than `period + 1` bars return a same-length series
of nulls carrying the input dates; `calculateMACD` with fewer than
`slowPeriod` bars returns the empty series. -/
theorem C5_undersized_inputs (data : List HistoricalDataPoint)
    (period fast slow sig : ℕ) :
    (data.length < period → calculateMA data period = data.map fun d => ⟨d.date, none⟩) ∧
    (data.length < period + 1 → calculateRSI data period = data.map fun d => ⟨d.date, none⟩) ∧
    (data.length < slow → calculateMACD data fast slow sig = []) := by
  refine ⟨?_, ?_, ?_⟩
  · intro h
    rw [calculateMA, if_pos (Or.inl h)]
  · intro h
    rw [calculateRSI.eq_def, if_pos (Or.inl (by omega))]
  · intro h
    rw [calculateMACD, if_pos h]

theorem C5_undersized_inputs_witness :
    (calculateMA demoBars 6 = demoBars.map fun d => ⟨d.date, none⟩) ∧
    (calculateRSI demoBars 5 = demoBars.map fun d => ⟨d.date, none⟩) ∧
    (calculateMACD demoBars 12 26 9 = []) := by
  have h := C5_undersized_inputs demoBars 6 12 26 9
  refine ⟨h.1 (by norm_num [demoBars]), ?_, h.2.2 (by norm_num [demoBars])⟩
  exact (C5_undersized_inputs demoBars 5 12 26 9).2.1 (by norm_num [demoBars])

lemma JSNum.nan_add (a : JSNum) : JSNum.nan + a = JSNum.nan := rfl

lemma JSNum.add_nan (a : JSNum) : a + JSNum.nan = JSNum.nan := by
  cases a <;> rfl

lemma JSNum.nan_sub (a : JSNum) : JSNum.nan - a = JSNum.nan := rfl

lemma JSNum.sub_nan (a : JSNum) : a - JSNum.nan = JSNum.nan := by
  cases a <;> rfl

lemma JSNum.nan_div (a : JSNum) : JSNum.nan / a = JSNum.nan := rfl

/-- A NaN anywhere in a list poisons its sum. -/
lemma jsSum_nan : ∀ (l : List JSNum), JSNum.nan ∈ l → l.sum = JSNum.nan := by
  intro l hl
  induction l with
  | nil => simp at hl
  | cons a l ih =>
    rw [List.sum_cons]
    rcases List.mem_cons.mp hl with h | h
    · rw [← h, JSNum.nan_add]
    · rw [ih h, JSNum.add_nan]

lemma maLoopJS_length (period : ℕ) :
    ∀ (rest window : List JSNum) (sum : JSNum),
      (maLoopJS period window sum rest).length = rest.length := by
  intro rest
  induction rest with
  | nil => intro window sum; rfl
  | cons c rest ih => intro window sum; simp [maLoopJS, ih]

/-- Every value the JS sliding-window loop emits is non-null. -/
lemma maLoopJS_isSome (period : ℕ) :
    ∀ (rest window : List JSNum) (sum : JSNum) (j : ℕ), j < rest.length →
      ∃ q, (maLoopJS period window sum rest)[j]? = some (some q) := by
  intro rest
  induction rest with
  | nil => intro window sum j hj; simp at hj
  | cons c rest ih =>
    intro window sum j hj
    cases j with
    | zero => exact ⟨_, by rw [maLoopJS]; exact List.getElem?_cons_zero⟩
    | succ k =>
      rw [maLoopJS, List.getElem?_cons_succ]
      exact ih _ _ k (by simpa using hj)

/-- Once the running sum is NaN it stays NaN, and so does every further MA
value: the sliding update subtracts and adds through the NaN. -/
lemma maLoopJS_all_nan (period : ℕ) :
    ∀ (rest window : List JSNum) (j : ℕ), j < rest.length →
      (maLoopJS period window JSNum.nan rest)[j]? = some (some JSNum.nan) := by
  intro rest
  induction rest with
  | nil => intro window j hj; simp at hj
  | cons c rest ih =>
    intro window j hj
    rw [maLoopJS, JSNum.nan_sub, JSNum.nan_add]
    cases j with
    | zero => rw [List.getElem?_cons_zero, JSNum.nan_div]
    | succ k =>
      rw [List.getElem?_cons_succ]
      exact ih _ k (by simpa using hj)

/-- A NaN close poisons every MA value from its own window onward. -/
lemma maLoopJS_nan_from (period : ℕ) :
    ∀ (rest window : List JSNum) (sum : JSNum) (j : ℕ), rest[j]? = some JSNum.nan →
      ∀ k, j ≤ k → k < rest.length →
        (maLoopJS period window sum rest)[k]? = some (some JSNum.nan) := by
  intro rest
  induction rest with
  | nil => intro window sum j hj; simp at hj
  | cons c rest ih =>
    intro window sum j hj k hjk hk
    cases j with
    | zero =>
      have hc : c = JSNum.nan := by simpa using hj
      subst hc
      rw [maLoopJS, JSNum.add_nan]
      cases k with
      | zero => rw [List.getElem?_cons_zero, JSNum.nan_div]
      | succ k2 =>
        rw [List.getElem?_cons_succ]
        exact maLoopJS_all_nan period rest _ k2 (by simpa using hk)
    | succ j2 =>
      rw [List.getElem?_cons_succ] at hj
      cases k with
      | zero => omega
      | succ k2 =>
        rw [maLoopJS, List.getElem?_cons_succ]
        exact ih _ _ j2 hj k2 (by omega) (by simpa using hk)

/-- Index access through a null prefix, a seed element and a loop tail, the
shape shared by the MA/EMA output lists. -/
lemma replicate_append_cons_getElem {α : Type} (n : ℕ) (a x : α) (l : List α) (i : ℕ) :
    (List.replicate n a ++ x :: l)[i]? =
      if i < n then some a
      else if i = n then some x
      else l[i - n - 1]? := by
  by_cases h1 : i < n
  · rw [if_pos h1, List.getElem?_append_left (by simpa), List.getElem?_replicate, if_pos h1]
  · rw [if_neg h1, List.getElem?_append_right (by simp; omega), List.length_replicate]
    by_cases h2 : i = n
    · rw [if_pos h2, show i - n = 0 by omega, List.getElem?_cons_zero]
    · rw [if_neg h2, List.getElem?_cons, if_neg (show ¬i - n = 0 by omega)]

/-- NaN behaviour of `calculateMAJS`: one point per bar; a point is null
exactly at the warm-up positions (or when the series is undersized); and
whenever some bar at or before a computable position has a NaN close, the
value there is NaN — a value, not null. -/
lemma calculateMAJS_nan_spec (data : List HistoricalDataPointJS)
    (period : ℕ) (hp : 1 ≤ period) :
    (calculateMAJS data period).length = data.length ∧
    (∀ i pt, (calculateMAJS data period)[i]? = some pt →
      (pt.value = none ↔ i + 1 < period ∨ data.length < period)) ∧
    (∀ j i, j ≤ i → i < data.length → period ≤ i + 1 →
      (data.map HistoricalDataPointJS.close)[j]? = some JSNum.nan →
      ∃ pt, (calculateMAJS data period)[i]? = some pt ∧ pt.value = some JSNum.nan) := by
  by_cases hguard : data.length < period ∨ period = 0
  · have hlt : data.length < period := by
      rcases hguard with h | h
      · exact h
      · omega
    rw [calculateMAJS, if_pos hguard]
    refine ⟨by simp, ?_, ?_⟩
    · intro i pt hpt
      rw [List.getElem?_map] at hpt
      rcases hdi : data[i]? with _ | d
      · rw [hdi] at hpt
        simp at hpt
      · rw [hdi] at hpt
        simp at hpt
        rw [← hpt]
        simpa using Or.inr hlt
    · intro j i hji hi hpi hnan
      omega
  · have hplen : period ≤ data.length := by omega
    set closes := data.map HistoricalDataPointJS.close with hcloses
    have hclen : closes.length = data.length := by rw [hcloses]; simp
    set seed := (closes.take period).sum / JSNum.num period with hseed
    set loopOut := maLoopJS period (closes.take period) (closes.take period).sum
      (closes.drop period) with hloop
    have hlooplen : loopOut.length = data.length - period := by
      rw [hloop, maLoopJS_length]
      simp [hclen]
    have hvlen : (List.replicate (period - 1) (none : Option JSNum) ++ some seed :: loopOut).length
        = data.length := by
      simp [hlooplen]
      omega
    have hvchar : ∀ i : ℕ,
        (List.replicate (period - 1) (none : Option JSNum) ++ some seed :: loopOut)[i]? =
          if i < period - 1 then some none
          else if i = period - 1 then some (some seed)
          else loopOut[i - period]? := by
      intro i
      rw [replicate_append_cons_getElem,
        show i - (period - 1) - 1 = i - period from by omega]
    have hMAJS : calculateMAJS data period =
        List.zipWith (fun d v => ⟨d.date, v⟩) data
          (List.replicate (period - 1) (none : Option JSNum) ++ some seed :: loopOut) := by
      rw [calculateMAJS, if_neg hguard]
    refine ⟨?_, ?_, ?_⟩
    · rw [hMAJS]
      simp [hvlen]
    · intro i pt hpt
      rw [hMAJS, List.getElem?_zipWith] at hpt
      rcases hdi : data[i]? with _ | d
      · rw [hdi] at hpt
        simp at hpt
      · rw [hdi] at hpt
        have hi : i < data.length := by
          by_contra hge
          rw [List.getElem?_eq_none (by omega)] at hdi
          cases hdi
        rcases hvi : (List.replicate (period - 1) (none : Option JSNum)
            ++ some seed :: loopOut)[i]? with _ | v
        · rw [List.getElem?_eq_none_iff, hvlen] at hvi
          omega
        · rw [hvi] at hpt
          simp at hpt
          rw [← hpt]
          rw [hvchar i] at hvi
          by_cases hwarm : i < period - 1
          · rw [if_pos hwarm] at hvi
            cases hvi
            simp
            omega
          · rw [if_neg hwarm] at hvi
            by_cases hseedpos : i = period - 1
            · rw [if_pos hseedpos] at hvi
              cases hvi
              simp
              omega
            · rw [if_neg hseedpos] at hvi
              obtain ⟨q, hq⟩ := maLoopJS_isSome period (closes.drop period)
                (closes.take period) (closes.take period).sum (i - period)
                (by simp [hclen]; omega)
              rw [← hloop] at hq
              rw [hq] at hvi
              cases hvi
              simp
              omega
    · intro j i hji hi hpi hnan
      rcases hdi : data[i]? with _ | d
      · rw [List.getElem?_eq_none_iff] at hdi
        omega
      · have hvi : (List.replicate (period - 1) (none : Option JSNum)
            ++ some seed :: loopOut)[i]? = some (some JSNum.nan) := by
          rw [hvchar i, if_neg (by omega : ¬i < period - 1)]
          by_cases hj : j < period
          · have hmem : JSNum.nan ∈ closes.take period := by
              apply List.getElem?_mem (n := j)
              rw [List.getElem?_take, if_pos hj, hcloses]
              exact hnan
            have hsum : (closes.take period).sum = JSNum.nan := jsSum_nan _ hmem
            by_cases hseedpos : i = period - 1
            · rw [if_pos hseedpos, hseed, hsum]
              rfl
            · rw [if_neg hseedpos, hloop, hsum]
              exact maLoopJS_all_nan period (closes.drop period) _ (i - period)
                (by simp [hclen]; omega)
          · have hrest : (closes.drop period)[j - period]? = some JSNum.nan := by
              rw [List.getElem?_drop, show period + (j - period) = j by omega, hcloses]
              exact hnan
            rw [if_neg (by omega : ¬i = period - 1), hloop]
            exact maLoopJS_nan_from period (closes.drop period) _ _ (j - period) hrest
              (i - period) (by omega) (by simp [hclen]; omega)
        refine ⟨⟨d.date, some JSNum.nan⟩, ?_, rfl⟩
        rw [hMAJS, List.getElem?_zipWith, hdi, hvi]

/-- C7 (as stated, refuted): computing the MA on the reversed series is not
the reversal of the MA of the series: the null warm-up entries sit at the
first array positions in both cases, so they end up on opposite ends. -/
theorem C7_reverse_compute_counterexample :
    calculateMA twoBars.reverse 2 ≠ (calculateMA twoBars 2).reverse := by
  have h1 : calculateMA twoBars.reverse 2 = [⟨"d1", none⟩, ⟨"d0", some (3 / 2)⟩] := by
    norm_num [calculateMA, maLoop, twoBars, List.zipWith, List.replicate]
  have h2 : (calculateMA twoBars 2).reverse = [⟨"d1", some (3 / 2)⟩, ⟨"d0", none⟩] := by
    norm_num [calculateMA, maLoop, twoBars, List.zipWith, List.replicate]
  rw [h1, h2]
  simp

/-- Mapping the date out of zipped points recovers the input dates whenever
the second list is long enough. -/
lemma map_date_zipWith {β γ : Type} (g : HistoricalDataPoint → β → γ) (dt : γ → String)
    (hg : ∀ d b, dt (g d b) = d.date) :
    ∀ (data : List HistoricalDataPoint) (l : List β), data.length ≤ l.length →
      (List.zipWith g data l).map dt = data.map HistoricalDataPoint.date := by
  intro data
  induction data with
  | nil => intro l h; simp
  | cons d data ih =>
    intro l h
    cases l with
    | nil => simp at h
    | cons b l =>
      simp only [List.zipWith_cons_cons, List.map_cons, hg]
      rw [ih l (by simpa using h)]

/-- The signal/histogram loop never changes dates (it only updates the
`signal` and `histogram` fields). -/
lemma attachSignal_map_date : ∀ (pts : List MACDPoint) (sl : List (Option ℚ)),
    (attachSignal sl pts).map MACDPoint.date = pts.map MACDPoint.date := by
  intro pts
  induction pts with
  | nil => intro sl; rfl
  | cons p ps ih =>
    intro sl
    cases hm : p.macd with
    | none => simp [attachSignal, hm, ih]
    | some m =>
      cases sl with
      | nil => simp [attachSignal, hm, ih]
      | cons s sl2 => simp [attachSignal, hm, ih]

/-- The EMA output always has the length of its input. -/
lemma calculateEMA_length (l : List ℚ) (p : ℕ) : (calculateEMA l p).length = l.length := by
  rw [calculateEMA]
  split
  · simp
  · next h =>
    simp [emaLoop_length]
    omega

/-- C7 (amended): the output of `calculateMA` is aligned index-by-index with
its input — same length, same dates in the same order — whichever direction
the input uses, and likewise for `calculateMACD` once the series reaches
`slowPeriod` bars.  The reverse-compute-reverse identity itself does not
hold (see the counterexample), so chronologically correct warm-up placement
requires oldest-first input. -/
theorem C7_output_dates_align_with_input (data : List HistoricalDataPoint)
    (period fast slow sig : ℕ) :
    (calculateMA data period).map IndicatorPoint.date =
      data.map HistoricalDataPoint.date ∧
    (slow ≤ data.length →
      (calculateMACD data fast slow sig).map MACDPoint.date =
        data.map HistoricalDataPoint.date) := by
  constructor
  · rw [calculateMA]
    split
    · simp
    · next h =>
      exact map_date_zipWith (fun d v => (⟨d.date, v⟩ : IndicatorPoint))
        IndicatorPoint.date (fun d b => rfl) data _ (by simp [maLoop_length]; omega)
  · intro hslow
    rw [calculateMACD, if_neg (by omega)]
    rw [attachSignal_map_date]
    exact map_date_zipWith (fun d m => ({ date := d.date, macd := m } : MACDPoint))
      MACDPoint.date (fun d b => rfl) data _ (by simp [calculateEMA_length])

theorem C7_output_dates_align_with_input_witness :
    (calculateMA demoBars 3).map IndicatorPoint.date =
      demoBars.map HistoricalDataPoint.date ∧
    (calculateMACD demoBars 1 2 1).map MACDPoint.date =
      demoBars.map HistoricalDataPoint.date := by
  exact ⟨(C7_output_dates_align_with_input demoBars 3 1 2 1).1,
    (C7_output_dates_align_with_input demoBars 3 1 2 1).2 (by norm_num [demoBars])⟩

/-- C8: the three indicator functions are deterministic: two invocations on
the same bar sequence and the same periods yield identical output sequences.
The embedding itself witnesses that they are pure functions of their inputs
(the source reads no external state and mutates nothing). -/
theorem C8_calculate_functions_deterministic (data1 data2 : List HistoricalDataPoint)
    (period fast slow sig : ℕ) (h : data1 = data2) :
    calculateMA data1 period = calculateMA data2 period ∧
    calculateMACD data1 fast slow sig = calculateMACD data2 fast slow sig ∧
    calculateRSI data1 period = calculateRSI data2 period := by
  subst h
  exact ⟨rfl, rfl, rfl⟩

theorem C8_calculate_functions_deterministic_witness :
    calculateMA demoBars 5 = calculateMA demoBars 5 ∧
    calculateMACD demoBars 12 26 9 = calculateMACD demoBars 12 26 9 ∧
    calculateRSI demoBars 14 = calculateRSI demoBars 14 :=
  C8_calculate_functions_deterministic demoBars demoBars 5 12 26 9 rfl

/-- A run of bars within one ISO week collapses to a single bucket holding
the last close. -/
lemma aggLoop_same_week : ∀ (rest : List DailyBar) (key : ℤ) (c : ℚ),
    (∀ b ∈ rest, mondayOf b.date = key) →
    aggLoop key c rest = [⟨key, ((rest.getLast?).map DailyBar.close).getD c⟩] := by
  intro rest
  induction rest with
  | nil => intro key c _; simp [aggLoop]
  | cons b rest ih =>
    intro key c h
    rw [aggLoop, if_pos (h b (List.mem_cons_self b rest))]
    rw [ih key b.close (fun x hx => h x (List.mem_cons_of_mem b hx))]
    cases rest with
    | nil => simp
    | cons b2 rest2 =>
      rw [List.getLast?_cons_cons]
      rcases hl : (b2 :: rest2).getLast? with _ | x
      · simp at hl
      · simp [hl]

/-- C9: seven consecutive daily bars spanning exactly one ISO week (their
dates are `start, start+1, ..., start+6` with `start` a Monday) aggregate to
exactly one weekly bar whose close is the last (chronologically latest)
daily close. -/
theorem C9_aggregateToWeekly_one_week (bars : List DailyBar) (start : ℤ)
    (hmon : mondayOf start = start)
    (hdates : bars.map DailyBar.date = (List.range 7).map (fun k : ℕ => start + (k : ℤ))) :
    ∃ lb, bars.getLast? = some lb ∧ aggregateToWeekly bars = [⟨start, lb.close⟩] := by
  have hweek : ∀ b ∈ bars, mondayOf b.date = start := by
    intro b hb
    have hmem : b.date ∈ bars.map DailyBar.date := List.mem_map_of_mem DailyBar.date hb
    rw [hdates] at hmem
    obtain ⟨k, hk, hbk⟩ := List.mem_map.mp hmem
    rw [List.mem_range] at hk
    rw [mondayOf] at hmon ⊢
    rw [← hbk]
    omega
  rcases bars with _ | ⟨b0, rest⟩
  · have hlen := congrArg List.length hdates
    simp at hlen
  · rw [aggregateToWeekly, hweek b0 (List.mem_cons_self b0 rest)]
    rw [aggLoop_same_week rest start b0.close
      (fun x hx => hweek x (List.mem_cons_of_mem b0 hx))]
    rcases hlast : rest.getLast? with _ | lb
    · rw [List.getLast?_eq_none_iff] at hlast
      subst hlast
      exact ⟨b0, by simp, by simp⟩
    · have hne : rest ≠ [] := by
        intro hnil
        subst hnil
        simp at hlast
      rcases rest with _ | ⟨b1, rest2⟩
      · exact absurd rfl hne
      · refine ⟨lb, ?_, by simp [hlast]⟩
        rw [List.getLast?_cons_cons]
        exact hlast

theorem C9_aggregateToWeekly_one_week_witness :
    weekBars.getLast? = some ⟨17, 7⟩ ∧ aggregateToWeekly weekBars = [⟨11, 7⟩] := by
  obtain ⟨lb, hlb, hagg⟩ := C9_aggregateToWeekly_one_week weekBars 11 (by decide)
    (by decide)
  have hlast : weekBars.getLast? = some ⟨17, 7⟩ := by rfl
  rw [hlast] at hlb
  cases hlb
  exact ⟨hlast, hagg⟩

lemma JSNum.num_add (a b : ℚ) : JSNum.num a + JSNum.num b = JSNum.num (a + b) := rfl

lemma JSNum.num_sub (a b : ℚ) : JSNum.num a - JSNum.num b = JSNum.num (a - b) := rfl

lemma JSNum.num_mul (a b : ℚ) : JSNum.num a * JSNum.num b = JSNum.num (a * b) := rfl

lemma JSNum.num_div (a b : ℚ) :
    JSNum.num a / JSNum.num b = if b = 0 then JSNum.nan else JSNum.num (a / b) := rfl

lemma JSNum.nan_mul (a : JSNum) : JSNum.nan * a = JSNum.nan := rfl

lemma JSNum.mul_nan (a : JSNum) : a * JSNum.nan = JSNum.nan := by
  cases a <;> rfl

lemma JSNum.div_nan (a : JSNum) : a / JSNum.nan = JSNum.nan := by
  cases a <;> rfl

lemma JSNum.zero_def : (0 : JSNum) = JSNum.num 0 := rfl

lemma JSNum.gtZero_num (a : ℚ) : (JSNum.num a).gtZero = decide (0 < a) := rfl

lemma JSNum.gtZero_nan : JSNum.nan.gtZero = false := rfl

lemma JSNum.neg_num (a : ℚ) : JSNum.neg (JSNum.num a) = JSNum.num (-a) := rfl

lemma JSNum.neg_nan : JSNum.neg JSNum.nan = JSNum.nan := rfl

lemma JSNum.IsNonneg.add {x y : JSNum} (hx : x.IsNonneg) (hy : y.IsNonneg) :
    (x + y).IsNonneg := by
  obtain ⟨a, rfl, ha⟩ := hx
  obtain ⟨b, rfl, hb⟩ := hy
  exact ⟨a + b, JSNum.num_add a b, by linarith⟩

lemma JSNum.gtZero_iff (x : JSNum) : x.gtZero = true ↔ ∃ a : ℚ, x = JSNum.num a ∧ 0 < a := by
  cases x with
  | nan => simp [JSNum.gtZero]
  | num a => simp [JSNum.gtZero]

lemma sumGainsJS_nonneg : ∀ (l : List JSNum) (prev : JSNum), (sumGainsJS prev l).IsNonneg := by
  intro l
  induction l with
  | nil => intro prev; exact ⟨0, rfl, le_refl 0⟩
  | cons c rest ih =>
    intro prev
    rw [sumGainsJS]
    refine JSNum.IsNonneg.add ?_ (ih c)
    by_cases h : (c - prev).gtZero
    · rw [if_pos h]
      obtain ⟨a, ha, hpos⟩ := (JSNum.gtZero_iff _).mp h
      exact ⟨a, ha, le_of_lt hpos⟩
    · rw [if_neg h]
      exact ⟨0, rfl, le_refl 0⟩

lemma currentGainJS_nonneg (change : JSNum) : (currentGainJS change).IsNonneg := by
  rw [currentGainJS]
  by_cases h : change.gtZero
  · rw [if_pos h]
    obtain ⟨a, ha, hpos⟩ := (JSNum.gtZero_iff _).mp h
    exact ⟨a, ha, le_of_lt hpos⟩
  · rw [if_neg h]
    exact ⟨0, rfl, le_refl 0⟩

lemma nextAvgJS_nonneg (period : ℕ) (hp : 1 ≤ period) (avg cur : JSNum)
    (ha : avg.IsNonneg) (hc : cur.IsNonneg) : (nextAvgJS period avg cur).IsNonneg := by
  obtain ⟨a, rfl, ha2⟩ := ha
  obtain ⟨b, rfl, hb2⟩ := hc
  have hper : ((period : ℚ)) ≠ 0 := by
    have : (1 : ℚ) ≤ (period : ℚ) := by exact_mod_cast hp
    linarith
  have hper1 : (0 : ℚ) ≤ (period : ℚ) - 1 := by
    have : (1 : ℚ) ≤ (period : ℚ) := by exact_mod_cast hp
    linarith
  rw [nextAvgJS, JSNum.num_sub, JSNum.num_mul, JSNum.num_add, JSNum.num_div, if_neg hper]
  refine ⟨(a * ((period : ℚ) - 1) + b) / (period : ℚ), rfl, ?_⟩
  positivity

lemma divPeriodJS_nonneg (period : ℕ) (hp : 1 ≤ period) (x : JSNum) (hx : x.IsNonneg) :
    (x / JSNum.num period).IsNonneg := by
  obtain ⟨a, rfl, ha⟩ := hx
  have hper : ((period : ℚ)) ≠ 0 := by
    have : (1 : ℚ) ≤ (period : ℚ) := by exact_mod_cast hp
    linarith
  rw [JSNum.num_div, if_neg hper]
  refine ⟨a / (period : ℚ), rfl, ?_⟩
  positivity

/-- With the source's `rs = 0` fallback, a NaN average loss produces `rs = 0`. -/
lemma rsOfJS_nan (g : JSNum) : rsOfJS g JSNum.nan = JSNum.num 0 := by
  rw [rsOfJS, if_neg (by rw [JSNum.gtZero_nan]; exact Bool.false_ne_true)]

lemma rsiValueJS_zero : rsiValueJS (JSNum.num 0) = JSNum.num 0 := by
  rw [rsiValueJS, JSNum.num_add, JSNum.num_div, if_neg (by norm_num), JSNum.num_sub]
  norm_num

/-- With a nonnegative plain-number average gain, the JS RSI value is a
plain number for every average loss (NaN included): NaN only reaches the
value through `avgLoss`, and the `rs = 0` fallback absorbs it. -/
lemma rsiValueJS_num (g l : JSNum) (hg : g.IsNonneg) :
    ∃ a : ℚ, rsiValueJS (rsOfJS g l) = JSNum.num a := by
  by_cases hl : l.gtZero
  · obtain ⟨lq, rfl, hlpos⟩ := (JSNum.gtZero_iff _).mp hl
    obtain ⟨gq, rfl, hgq⟩ := hg
    have hlq : lq ≠ 0 := ne_of_gt hlpos
    have hrs : (0 : ℚ) ≤ gq / lq := by positivity
    have hden : (1 : ℚ) + gq / lq ≠ 0 := by linarith
    refine ⟨100 - 100 / (1 + gq / lq), ?_⟩
    rw [rsOfJS, if_pos hl, JSNum.num_div, if_neg hlq, rsiValueJS, JSNum.num_add,
      JSNum.num_div, if_neg hden, JSNum.num_sub]
  · rw [rsOfJS, if_neg hl]
    exact ⟨0, rsiValueJS_zero⟩

lemma nextAvgJS_nan_left (period : ℕ) (cur : JSNum) :
    nextAvgJS period JSNum.nan cur = JSNum.nan := by
  rw [nextAvgJS, JSNum.nan_mul, JSNum.nan_add, JSNum.nan_div]

lemma nextAvgJS_nan_cur (period : ℕ) (avg : JSNum) :
    nextAvgJS period avg JSNum.nan = JSNum.nan := by
  rw [nextAvgJS, JSNum.add_nan, JSNum.nan_div]

/-- A NaN change (failed `> 0` test) contributes a NaN loss. -/
lemma currentLossJS_nan : currentLossJS JSNum.nan = JSNum.nan := by
  rw [currentLossJS, if_neg (by rw [JSNum.gtZero_nan]; exact Bool.false_ne_true), JSNum.neg_nan]

lemma rsiLoopJS_length (period : ℕ) :
    ∀ (rest : List HistoricalDataPointJS) (g l prev : JSNum),
      (rsiLoopJS period g l prev rest).length = rest.length := by
  intro rest
  induction rest with
  | nil => intro g l prev; rfl
  | cons d rest ih => intro g l prev; simp [rsiLoopJS, ih]

/-- Every point the JS RSI loop emits carries a plain-number value, as long
as the running average gain is a nonnegative plain number (which the NaN
semantics preserves: gains only accumulate through passed `> 0` tests). -/
lemma rsiLoopJS_value_num (period : ℕ) (hp : 1 ≤ period) :
    ∀ (rest : List HistoricalDataPointJS) (g l prev : JSNum), g.IsNonneg →
      ∀ j, j < rest.length →
        ∃ pt, (rsiLoopJS period g l prev rest)[j]? = some pt ∧
          ∃ a : ℚ, pt.value = some (JSNum.num a) := by
  intro rest
  induction rest with
  | nil => intro g l prev _ j hj; simp at hj
  | cons d rest ih =>
    intro g l prev hg j hj
    have hg2 := nextAvgJS_nonneg period hp g (currentGainJS (d.close - prev)) hg
      (currentGainJS_nonneg _)
    cases j with
    | zero =>
      obtain ⟨a, ha⟩ := rsiValueJS_num _ (nextAvgJS period l (currentLossJS (d.close - prev))) hg2
      exact ⟨_, by rw [rsiLoopJS]; exact List.getElem?_cons_zero, ⟨a, by simp [ha]⟩⟩
    | succ k =>
      rw [rsiLoopJS, List.getElem?_cons_succ]
      exact ih _ _ d.close hg2 k (by simpa using hj)

/-- Once the running average loss is NaN, every further JS RSI value is the
plain number 0: the NaN fails `avgLoss > 0`, so `rs = 0` and the value is
`100 - 100/1 = 0`, and the smoothing keeps the average loss NaN. -/
lemma rsiLoopJS_all_zero (period : ℕ) :
    ∀ (rest : List HistoricalDataPointJS) (g prev : JSNum) (j : ℕ), j < rest.length →
      ∃ pt, (rsiLoopJS period g JSNum.nan prev rest)[j]? = some pt ∧
        pt.value = some (JSNum.num 0) := by
  intro rest
  induction rest with
  | nil => intro g prev j hj; simp at hj
  | cons d rest ih =>
    intro g prev j hj
    rw [rsiLoopJS, nextAvgJS_nan_left, rsOfJS_nan, rsiValueJS_zero]
    cases j with
    | zero => exact ⟨_, List.getElem?_cons_zero, rfl⟩
    | succ k =>
      rw [List.getElem?_cons_succ]
      exact ih _ d.close k (by simpa using hj)

/-- A NaN previous close poisons the very next change, so every JS RSI value
of the loop is 0 from there on. -/
lemma rsiLoopJS_prev_nan (period : ℕ) :
    ∀ (rest : List HistoricalDataPointJS) (g l : JSNum) (j : ℕ), j < rest.length →
      ∃ pt, (rsiLoopJS period g l JSNum.nan rest)[j]? = some pt ∧
        pt.value = some (JSNum.num 0) := by
  intro rest g l j hj
  cases rest with
  | nil => simp at hj
  | cons d rest =>
    rw [rsiLoopJS, JSNum.sub_nan, currentLossJS_nan, nextAvgJS_nan_cur, rsOfJS_nan,
      rsiValueJS_zero]
    cases j with
    | zero => exact ⟨_, List.getElem?_cons_zero, rfl⟩
    | succ k =>
      rw [List.getElem?_cons_succ]
      exact rsiLoopJS_all_zero period rest _ d.close k (by simpa using hj)

/-- A NaN close inside the loop poisons the average loss at its own step, so
the JS RSI value is 0 from that bar onward. -/
lemma rsiLoopJS_nan_from (period : ℕ) :
    ∀ (rest : List HistoricalDataPointJS) (g l prev : JSNum) (j : ℕ),
      (rest.map HistoricalDataPointJS.close)[j]? = some JSNum.nan →
      ∀ k, j ≤ k → k < rest.length →
        ∃ pt, (rsiLoopJS period g l prev rest)[k]? = some pt ∧
          pt.value = some (JSNum.num 0) := by
  intro rest
  induction rest with
  | nil => intro g l prev j hj; simp at hj
  | cons d rest ih =>
    intro g l prev j hj k hjk hk
    cases j with
    | zero =>
      have hc : d.close = JSNum.nan := by simpa using hj
      rw [rsiLoopJS, hc, JSNum.nan_sub, currentLossJS_nan, nextAvgJS_nan_cur, rsOfJS_nan,
        rsiValueJS_zero]
      cases k with
      | zero => exact ⟨_, List.getElem?_cons_zero, rfl⟩
      | succ k2 =>
        rw [List.getElem?_cons_succ]
        exact rsiLoopJS_all_zero period rest _ JSNum.nan k2 (by simpa using hk)
    | succ j2 =>
      rw [List.map_cons, List.getElem?_cons_succ] at hj
      cases k with
      | zero => omega
      | succ k2 =>
        rw [rsiLoopJS, List.getElem?_cons_succ]
        exact ih _ _ d.close j2 hj k2 (by omega) (by simpa using hk)

/-- A NaN among the changes of the seed window (NaN previous close with a
nonempty window, or NaN close inside the window) poisons the seed losses. -/
lemma sumLossesJS_nan : ∀ (l : List JSNum) (prev : JSNum),
    ((prev = JSNum.nan ∧ l ≠ []) ∨ JSNum.nan ∈ l) → sumLossesJS prev l = JSNum.nan := by
  intro l
  induction l with
  | nil =>
    intro prev h
    rcases h with ⟨_, hne⟩ | h
    · exact absurd rfl hne
    · simp at h
  | cons c rest ih =>
    intro prev h
    rw [sumLossesJS]
    rcases h with ⟨hprev, _⟩ | hmem
    · subst hprev
      rw [JSNum.sub_nan, if_neg (by rw [JSNum.gtZero_nan]; exact Bool.false_ne_true),
        JSNum.neg_nan, JSNum.nan_add]
    · rcases List.mem_cons.mp hmem with hc | hrest
      · rw [← hc, JSNum.nan_sub,
          if_neg (by rw [JSNum.gtZero_nan]; exact Bool.false_ne_true),
          JSNum.neg_nan, JSNum.nan_add]
      · rw [ih c (Or.inr hrest), JSNum.add_nan]

lemma emaLoopJS_length (m : JSNum) :
    ∀ (rest : List JSNum) (prev : JSNum), (emaLoopJS m prev rest).length = rest.length := by
  intro rest
  induction rest with
  | nil => intro prev; rfl
  | cons c rest ih => intro prev; simp [emaLoopJS, ih]

/-- The JS EMA output always has the length of its input. -/
lemma calculateEMAJS_length (l : List JSNum) (p : ℕ) :
    (calculateEMAJS l p).length = l.length := by
  rw [calculateEMAJS]
  split
  · simp
  · next h =>
    simp [emaLoopJS_length]
    omega

/-- The JS signal/histogram loop never changes dates. -/
lemma attachSignalJS_map_date : ∀ (pts : List MACDPointJS) (sl : List (Option JSNum)),
    (attachSignalJS sl pts).map MACDPointJS.date = pts.map MACDPointJS.date := by
  intro pts
  induction pts with
  | nil => intro sl; rfl
  | cons p ps ih =>
    intro sl
    cases hm : p.macd with
    | none => simp [attachSignalJS, hm, ih]
    | some m =>
      cases sl with
      | nil => simp [attachSignalJS, hm, ih]
      | cons s sl2 => simp [attachSignalJS, hm, ih]

/-- Mapping the date out of zipped JS points recovers the input dates
whenever the second list is long enough. -/
lemma map_date_zipWithJS {β γ : Type} (g : HistoricalDataPointJS → β → γ) (dt : γ → String)
    (hg : ∀ d b, dt (g d b) = d.date) :
    ∀ (data : List HistoricalDataPointJS) (l : List β), data.length ≤ l.length →
      (List.zipWith g data l).map dt = data.map HistoricalDataPointJS.date := by
  intro data
  induction data with
  | nil => intro l h; simp
  | cons d data ih =>
    intro l h
    cases l with
    | nil => simp at h
    | cons b l =>
      simp only [List.zipWith_cons_cons, List.map_cons, hg]
      rw [ih l (by simpa using h)]

/-- NaN behaviour of `calculateRSIJS`: one point per bar; null exactly at
the warm-up positions (or undersized input); every defined value is a plain
number (never NaN); and from the first NaN close onward every computable
value is exactly 0, because the NaN change fails both `> 0` tests. -/
lemma calculateRSIJS_nan_spec (data : List HistoricalDataPointJS) (period : ℕ)
    (hp : 1 ≤ period) :
    (calculateRSIJS data period).length = data.length ∧
    (∀ i pt, (calculateRSIJS data period)[i]? = some pt →
      (pt.value = none ↔ i < period ∨ data.length ≤ period) ∧
      ∀ v, pt.value = some v → ∃ a : ℚ, v = JSNum.num a) ∧
    (∀ j i, j ≤ i → i < data.length → period ≤ i →
      (data.map HistoricalDataPointJS.close)[j]? = some JSNum.nan →
      ∃ pt, (calculateRSIJS data period)[i]? = some pt ∧
        pt.value = some (JSNum.num 0)) := by
  by_cases hguard : data.length ≤ period ∨ period = 0
  · have hle : data.length ≤ period := by
      rcases hguard with h | h
      · exact h
      · omega
    rw [calculateRSIJS.eq_def, if_pos hguard]
    refine ⟨by simp, ?_, ?_⟩
    · intro i pt hpt
      rw [List.getElem?_map] at hpt
      rcases hdi : data[i]? with _ | d
      · rw [hdi] at hpt
        simp at hpt
      · rw [hdi] at hpt
        simp at hpt
        rw [← hpt]
        refine ⟨by simpa using Or.inr hle, ?_⟩
        intro v hv
        simp at hv
    · intro j i hji hi hpi hnan
      omega
  · have hlen : period < data.length := by omega
    rcases data with _ | ⟨d0, rest⟩
    · simp at hlen
    · have hrlen : period ≤ rest.length := by
        simp at hlen
        omega
      rcases hdrop : rest.drop (period - 1) with _ | ⟨dp, tail⟩
      · exfalso
        rw [List.drop_eq_nil_iff] at hdrop
        omega
      · set seedCloses := (rest.take period).map HistoricalDataPointJS.close with hseedc
        set avgGain := sumGainsJS d0.close seedCloses / JSNum.num period with havgG
        set avgLoss := sumLossesJS d0.close seedCloses / JSNum.num period with havgL
        have hcalc : calculateRSIJS (d0 :: rest) period =
            ((d0 :: rest).take period).map (fun d => ⟨d.date, none⟩)
              ++ ⟨dp.date, some (rsiValueJS (rsOfJS avgGain avgLoss))⟩
                :: rsiLoopJS period avgGain avgLoss dp.close tail := by
          rw [calculateRSIJS.eq_def, if_neg hguard]
          simp only [hdrop]
        have htail : tail.length = rest.length - period := by
          have h2 := congrArg List.length hdrop
          simp at h2
          omega
        have hplen : (((d0 :: rest).take period).map
            (fun d => (⟨d.date, none⟩ : IndicatorPointJS))).length = period := by
          simp
          omega
        have htail2 : tail = rest.drop period := by
          have h2 : rest.drop period = (rest.drop (period - 1)).drop 1 := by
            rw [List.drop_drop]
            congr 1
            omega
          rw [h2, hdrop, List.drop_one, List.tail_cons]
        have hnonneg : avgGain.IsNonneg :=
          divPeriodJS_nonneg period hp _ (sumGainsJS_nonneg _ _)
        refine ⟨?_, ?_, ?_⟩
        · rw [hcalc]
          simp [rsiLoopJS_length]
          omega
        · intro i pt hpt
          rw [hcalc] at hpt
          by_cases hwarm : i < period
          · rw [List.getElem?_append_left (by rw [hplen]; exact hwarm),
              List.getElem?_map] at hpt
            rcases hti : ((d0 :: rest).take period)[i]? with _ | d
            · rw [hti] at hpt
              simp at hpt
            · rw [hti] at hpt
              simp at hpt
              rw [← hpt]
              refine ⟨by simpa using Or.inl hwarm, ?_⟩
              intro v hv
              simp at hv
          · rw [List.getElem?_append_right (by rw [hplen]; omega), hplen] at hpt
            by_cases hieq : i = period
            · subst hieq
              rw [Nat.sub_self, List.getElem?_cons_zero] at hpt
              cases hpt
              obtain ⟨a, ha⟩ := rsiValueJS_num avgGain avgLoss hnonneg
              refine ⟨by simp; omega, ?_⟩
              intro v hv
              simp at hv
              rw [← hv, ha]
              exact ⟨a, rfl⟩
            · rw [show i - period = (i - period - 1) + 1 by omega,
                List.getElem?_cons_succ] at hpt
              have hbound : i - period - 1 < tail.length := by
                by_contra hge
                rw [List.getElem?_eq_none (by rw [rsiLoopJS_length]; omega)] at hpt
                cases hpt
              obtain ⟨pt2, hpt2, ⟨a, ha⟩⟩ := rsiLoopJS_value_num period hp tail
                avgGain avgLoss dp.close hnonneg (i - period - 1) hbound
              rw [hpt2] at hpt
              cases hpt
              refine ⟨?_, ?_⟩
              · rw [ha]
                simp
                omega
              · intro v hv
                rw [ha] at hv
                simp at hv
                exact ⟨a, hv.symm⟩
        · intro j i hji hi hpi hnan
          simp only [List.length_cons] at hi
          rw [hcalc]
          by_cases hj : j ≤ period
          · have hloss : sumLossesJS d0.close seedCloses = JSNum.nan := by
              apply sumLossesJS_nan
              rcases Nat.eq_zero_or_pos j with hj0 | hjpos
              · subst hj0
                refine Or.inl ⟨?_, ?_⟩
                · simpa using hnan
                · rw [hseedc]
                  have hscl : (List.map HistoricalDataPointJS.close
                      (List.take period rest)).length = period := by
                    rw [List.length_map, List.length_take]
                    omega
                  intro hempty
                  rw [hempty] at hscl
                  simp at hscl
                  omega
              · refine Or.inr ?_
                apply List.getElem?_mem (n := j - 1)
                rw [hseedc, List.getElem?_map, List.getElem?_take,
                  if_pos (by omega : j - 1 < period)]
                rw [show j = (j - 1) + 1 by omega, List.map_cons,
                  List.getElem?_cons_succ, List.getElem?_map] at hnan
                rcases hrj : rest[j - 1]? with _ | r
                · rw [hrj] at hnan
                  cases hnan
                · rw [hrj] at hnan
                  simp at hnan
                  simp [hnan]
            have havgLnan : avgLoss = JSNum.nan := by
              rw [havgL, hloss, JSNum.nan_div]
            by_cases hieq : i = period
            · subst hieq
              refine ⟨⟨dp.date, some (JSNum.num 0)⟩, ?_, rfl⟩
              rw [List.getElem?_append_right (by rw [hplen]), hplen, Nat.sub_self,
                List.getElem?_cons_zero, havgLnan, rsOfJS_nan, rsiValueJS_zero]
            · obtain ⟨pt, hpt, hv⟩ := rsiLoopJS_all_zero period tail avgGain dp.close
                (i - period - 1) (by omega)
              refine ⟨pt, ?_, hv⟩
              rw [List.getElem?_append_right (by rw [hplen]; omega), hplen,
                show i - period = (i - period - 1) + 1 by omega,
                List.getElem?_cons_succ, havgLnan]
              exact hpt
          · have hrestnan : (tail.map HistoricalDataPointJS.close)[j - period - 1]? =
                some JSNum.nan := by
              rw [htail2, List.map_drop, List.getElem?_drop,
                show period + (j - period - 1) = j - 1 by omega]
              rw [show j = (j - 1) + 1 by omega, List.map_cons,
                List.getElem?_cons_succ] at hnan
              exact hnan
            obtain ⟨pt, hpt, hv⟩ := rsiLoopJS_nan_from period tail avgGain avgLoss
              dp.close (j - period - 1) hrestnan (i - period - 1) (by omega) (by omega)
            refine ⟨pt, ?_, hv⟩
            rw [List.getElem?_append_right (by rw [hplen]; omega), hplen,
              show i - period = (i - period - 1) + 1 by omega, List.getElem?_cons_succ]
            exact hpt

/-- Structural completeness of `calculateMACDJS`: with at least `slowPeriod`
bars the output — NaN closes included — has one point per input bar,
carrying the input dates in order; computation is never aborted. -/
lemma calculateMACDJS_structure (data : List HistoricalDataPointJS) (fast slow sig : ℕ)
    (hslow : slow ≤ data.length) :
    (calculateMACDJS data fast slow sig).length = data.length ∧
    (calculateMACDJS data fast slow sig).map MACDPointJS.date =
      data.map HistoricalDataPointJS.date := by
  have hdates : (calculateMACDJS data fast slow sig).map MACDPointJS.date =
      data.map HistoricalDataPointJS.date := by
    rw [calculateMACDJS, if_neg (by omega)]
    rw [attachSignalJS_map_date]
    exact map_date_zipWithJS (fun d m => ({ date := d.date, macd := m } : MACDPointJS))
      MACDPointJS.date (fun d b => rfl) data _ (by simp [calculateEMAJS_length])
  refine ⟨?_, hdates⟩
  have h1 := congrArg List.length hdates
  simpa using h1

/-- C6 (amended): a NaN close throws no exception and aborts nothing in
`calculateMA`, `calculateRSI` or `calculateMACD`, but the affected values do
not become null.  `calculateMA` keeps one point per bar with null exactly at
the warm-up positions, and every computable value from the first NaN close
onward is NaN (the sliding sum propagates it).  `calculateRSI` keeps one
point per bar with null exactly at the warm-up positions, every defined
value is a plain number — never NaN, because a NaN change fails both `> 0`
tests — and every computable value from the first NaN close onward is
exactly 0 (the NaN average loss makes `rs = 0`).  `calculateMACD`, once
`slowPeriod` bars exist, still returns one point per input bar carrying the
input dates. -/
theorem C6_nan_propagates_as_nan_not_null (data : List HistoricalDataPointJS)
    (period fast slow sig : ℕ) (hp : 1 ≤ period) :
    (calculateMAJS data period).length = data.length ∧
    (∀ i pt, (calculateMAJS data period)[i]? = some pt →
      (pt.value = none ↔ i + 1 < period ∨ data.length < period)) ∧
    (∀ j i, j ≤ i → i < data.length → period ≤ i + 1 →
      (data.map HistoricalDataPointJS.close)[j]? = some JSNum.nan →
      ∃ pt, (calculateMAJS data period)[i]? = some pt ∧ pt.value = some JSNum.nan) ∧
    (calculateRSIJS data period).length = data.length ∧
    (∀ i pt, (calculateRSIJS data period)[i]? = some pt →
      (pt.value = none ↔ i < period ∨ data.length ≤ period) ∧
      ∀ v, pt.value = some v → ∃ a : ℚ, v = JSNum.num a) ∧
    (∀ j i, j ≤ i → i < data.length → period ≤ i →
      (data.map HistoricalDataPointJS.close)[j]? = some JSNum.nan →
      ∃ pt, (calculateRSIJS data period)[i]? = some pt ∧
        pt.value = some (JSNum.num 0)) ∧
    (slow ≤ data.length →
      (calculateMACDJS data fast slow sig).length = data.length ∧
      (calculateMACDJS data fast slow sig).map MACDPointJS.date =
        data.map HistoricalDataPointJS.date) := by
  obtain ⟨hma1, hma2, hma3⟩ := calculateMAJS_nan_spec data period hp
  obtain ⟨hrsi1, hrsi2, hrsi3⟩ := calculateRSIJS_nan_spec data period hp
  exact ⟨hma1, hma2, hma3, hrsi1, hrsi2, hrsi3,
    fun hslow => calculateMACDJS_structure data fast slow sig hslow⟩

/-- C6 (as stated, refuted): with a NaN close the affected derived values do
not become null in any of the three functions — `calculateMA` yields NaN at
both points, `calculateRSI` yields the plain number 0 at its computable
point, and `calculateMACD` puts NaN (not null) in the derived MACD value. -/
theorem C6_nan_counterexample :
    (calculateMAJS nanBars 1).map IndicatorPointJS.value =
      [some JSNum.nan, some JSNum.nan] ∧
    (calculateRSIJS nanBars 1).map IndicatorPointJS.value =
      [none, some (JSNum.num 0)] ∧
    (calculateMACDJS nanBars 1 2 1).map MACDPointJS.macd = [none, some JSNum.nan] ∧
    some JSNum.nan ≠ (none : Option JSNum) ∧
    some (JSNum.num 0) ≠ (none : Option JSNum) := by
  refine ⟨?_, ?_, ?_, by simp, by simp⟩
  · norm_num [calculateMAJS, maLoopJS, nanBars, List.zipWith, List.replicate,
      JSNum.nan_add, JSNum.add_nan, JSNum.nan_sub, JSNum.sub_nan, JSNum.nan_div]
  · norm_num [calculateRSIJS, nanBars, rsiLoopJS, sumGainsJS, sumLossesJS, rsOfJS,
      rsiValueJS, nextAvgJS, currentGainJS, currentLossJS, JSNum.gtZero_num,
      JSNum.gtZero_nan, JSNum.neg_num, JSNum.neg_nan, JSNum.num_add, JSNum.num_sub,
      JSNum.num_mul, JSNum.num_div, JSNum.nan_add, JSNum.add_nan, JSNum.nan_sub,
      JSNum.sub_nan, JSNum.nan_mul, JSNum.mul_nan, JSNum.nan_div, JSNum.div_nan,
      JSNum.zero_def]
  · norm_num [calculateMACDJS, calculateEMAJS, emaLoopJS, attachSignalJS, nanBars,
      List.zipWith, List.filterMap, List.replicate, JSNum.num_add, JSNum.num_sub,
      JSNum.num_mul, JSNum.num_div, JSNum.nan_add, JSNum.add_nan, JSNum.nan_sub,
      JSNum.sub_nan, JSNum.nan_mul, JSNum.mul_nan, JSNum.nan_div, JSNum.div_nan,
      JSNum.zero_def]

theorem C6_nan_propagates_as_nan_not_null_witness :
    (calculateMAJS nanBars 1).length = nanBars.length ∧
    (∃ pt, (calculateMAJS nanBars 1)[1]? = some pt ∧ pt.value = some JSNum.nan) ∧
    (calculateRSIJS nanBars 1).length = nanBars.length ∧
    (∃ pt, (calculateRSIJS nanBars 1)[1]? = some pt ∧ pt.value = some (JSNum.num 0)) ∧
    (calculateMACDJS nanBars 1 2 1).length = nanBars.length := by
  have h := C6_nan_propagates_as_nan_not_null nanBars 1 1 2 1 (by norm_num)
  refine ⟨h.1, ?_, h.2.2.2.1, ?_, ?_⟩
  · exact h.2.2.1 0 1 (by norm_num) (by norm_num [nanBars]) (by norm_num)
      (by norm_num [nanBars])
  · exact h.2.2.2.2.2.1 0 1 (by norm_num) (by norm_num [nanBars]) (by norm_num)
      (by norm_num [nanBars])
  · exact (h.2.2.2.2.2.2 (by norm_num [nanBars])).1
